import Mathlib

/-!
Verification development for the Executor-Coreland repository
(`Parser.py` / `Main.py`): a recursive-descent parser, semantic checker and
tree-walking interpreter for the Core language.

The Python source is shallowly embedded below:
* tokens mirror the `Core` enum used by `Scanner`/`Parser`;
* AST types mirror the node-list shapes each `parse` method can build;
* `*.parse`, `*.semantics` and `*.execute` methods of `Parser.py` become
  total Lean functions (fuel makes parser recursion and `while` loops
  manifestly terminating; `sys.exit(...)` becomes `Except.error`);
* the mutable `scope_tree` chain becomes an explicit root-first list of
  frames (`Chain`), the Python `scope`/`local` alias argument becomes the
  index of its frame in that chain, and `dict` becomes an
  insertion-ordered association list, matching Python `dict` semantics;
* Python's dynamically typed runtime values (`int` after assignment of an
  expression, `str` after `input`, since `Parser.clean_data` never converts
  its strings, `None` after a bare declaration) become `Option Val`.
-/

namespace Coreland

/-- Runtime values flowing through `execute`: Python `int` or `str`.
`str` values enter via `Input.execute`, which stores elements of
`parser.data`, a list of strings produced by `Parser.clean_data`. -/
inductive Val where
  | int (n : Int)
  | str (s : String)
  deriving DecidableEq, Repr

/-- The fatal conditions of `Parser.py`; every `sys.exit(...)` call and every
uncaught Python exception reachable in the embedded code gets a constructor.
`outOfFuel` is a meta-level marker used by the fuel-based recursion only. -/
inductive Err where
  | notInstantiated (v : String)   -- 'Variable {v} not instantiated'
  | declaredTwice (v : String)     -- 'Variable {v} declared twice within the same scope.'
  | notDeclared (v : String)       -- 'Variable {v} not declared in any scope.'
  | insufficientData               -- 'Insufficient entries in data file to complete.'
  | valueError                     -- Python ValueError (int(c) on a non-integer data segment)
  | typeError                      -- Python TypeError (e.g. str < int)
  | indexError                     -- Python IndexError (Cmpr.execute with no operator token)
  | unexpectedToken                -- Parser.token_validate: 'Token ... was invalidly placed'
  | badStatementStart              -- StmtSeq.parse: 'Bad start to statement'
  | invalidOperator                -- Factor.parse: 'Invalid operator received.'
  | trailingTokens                 -- Program.parse: 'Declarations following end statement.'
  | outOfFuel
  deriving DecidableEq, Repr

/-- The token kinds of the external `Core` enum; `ID` and `CONST` carry the
payload that `Scanner.getID` / `Scanner.getCONST` expose separately.
`ERROR` doubles as the end-of-stream marker that `Program.parse` expects
after the final `end`. -/
inductive Tok where
  | PROGRAM | BEGIN | END | INT
  | ID (s : String)
  | CONST (n : Int)
  | COMMA | SEMICOLON | ASSIGN
  | IF | THEN | ELSE | ENDIF
  | WHILE | ENDWHILE
  | INPUT | OUTPUT
  | ADD | SUB | MULT
  | LPAREN | RPAREN
  | NEGATION | OR
  | EQUAL | LESS | LESSEQUAL
  | ERROR
  deriving DecidableEq, Repr

/-- Payload-free kind comparison: `Parser.token_validate` compares the
scanner's current token kind with an expected `Core` enum member, never a
payload. -/
def Tok.kindIdx : Tok → Nat
  | .PROGRAM => 0 | .BEGIN => 1 | .END => 2 | .INT => 3
  | .ID _ => 4 | .CONST _ => 5
  | .COMMA => 6 | .SEMICOLON => 7 | .ASSIGN => 8
  | .IF => 9 | .THEN => 10 | .ELSE => 11 | .ENDIF => 12
  | .WHILE => 13 | .ENDWHILE => 14
  | .INPUT => 15 | .OUTPUT => 16
  | .ADD => 17 | .SUB => 18 | .MULT => 19
  | .LPAREN => 20 | .RPAREN => 21
  | .NEGATION => 22 | .OR => 23
  | .EQUAL => 24 | .LESS => 25 | .LESSEQUAL => 26
  | .ERROR => 27

def Tok.kindEq (a b : Tok) : Bool := a.kindIdx == b.kindIdx

/-- Transcribes `Parser.token`: the scanner's current token; a scanner that has run out
of source stays on the end marker. -/
def curTok : List Tok → Tok
  | [] => .ERROR
  | t :: _ => t

/-- One scope level's dictionary: Python `dict` as an insertion-ordered
association list (new keys are appended, updates rewrite in place). -/
abbrev Frame (α : Type) := List (String × α)

def Frame.hasKey {α} (f : Frame α) (v : String) : Bool :=
  f.any (fun p => p.1 == v)

def Frame.get? {α} (f : Frame α) (v : String) : Option α :=
  (f.find? (fun p => p.1 == v)).map (fun p => p.2)

/-- Python `d[v] = x` on an existing key: rewrite the binding in place. -/
def Frame.set {α} (f : Frame α) (v : String) (x : α) : Frame α :=
  f.map (fun p => if p.1 == v then (v, x) else p)

/-- The attached scope chain: `parser.global_scope` (`root`) followed by the
frames reachable through the `child` pointers, root first.  The Python code
passes frame objects around as the `scope`/`local` argument; here such an
alias is the index of the frame in this chain. -/
structure Chain (α : Type) where
  root : Frame α
  rest : List (Frame α)
  deriving DecidableEq, Repr

def Chain.frames {α} (c : Chain α) : List (Frame α) := c.root :: c.rest

def Chain.getFrame {α} (c : Chain α) (i : Nat) : Frame α :=
  c.frames.getD i []

def Chain.setFrame {α} : Chain α → Nat → Frame α → Chain α
  | c, 0, f => ⟨f, c.rest⟩
  | c, i + 1, f => ⟨c.root, c.rest.set i f⟩

/-- Transcribes `scope.child = self.local` where `scope` sits at index `i`: everything
below `i` is unlinked and `f` becomes the single child. -/
def Chain.truncAttach {α} (c : Chain α) (i : Nat) (f : Frame α) : Chain α :=
  ⟨c.root, c.rest.take i ++ [f]⟩

/-- Transcribes `scope.child = None` where `scope` sits at index `i`. -/
def Chain.trunc {α} (c : Chain α) (i : Nat) : Chain α :=
  ⟨c.root, c.rest.take i⟩

/-- Deepest-match search over a root-first frame list: the index of the
innermost frame containing `v`.  This is `Parser.dfs_scope` expressed on the
chain-as-list representation (see `dfs_scope` below for the verbatim tree
form and `dfsList_eq_find_leafFirst` tying the two together). -/
def dfsList {α} : List (Frame α) → String → Option Nat
  | [], _ => none
  | f :: rest, v =>
      match dfsList rest v with
      | some j => some (j + 1)
      | none => if f.hasKey v then some 0 else none

def Chain.dfs {α} (c : Chain α) (v : String) : Option Nat :=
  dfsList c.frames v

/-- The `scope_tree` class: a dictionary and an optional child scope. -/
inductive STree (α : Type) where
  | mk (dict : Frame α) (child : Option (STree α))

def STree.dct {α} : STree α → Frame α
  | .mk d _ => d

/-- Transcribes `Parser.dfs_scope`, transcribed: recurse into the child first, prefer a
child hit that really contains the variable, then the current node's
dictionary, else `None`. -/
def dfs_scope {α} : STree α → String → Option (STree α)
  | .mk d none, v =>
      if Frame.hasKey d v then some (.mk d none) else none
  | .mk d (some c), v =>
      match dfs_scope c v with
      | some sub =>
          if Frame.hasKey sub.dct v then some sub
          else if Frame.hasKey d v then some (.mk d (some c)) else none
      | none =>
          if Frame.hasKey d v then some (.mk d (some c)) else none

/-- The frames of a scope tree listed leaf (innermost) first. -/
def STree.leafFirst {α} : STree α → List (STree α)
  | .mk d none => [.mk d none]
  | .mk d (some c) => c.leafFirst ++ [.mk d (some c)]

/-- Python `text.split(' ')`: cut at every single space character, keeping
empty segments. -/
def splitSpaces : List Char → List String
  | [] => [""]
  | c :: rest =>
      match splitSpaces rest with
      | [] => [String.mk [c]]
      | s :: ss =>
          if c = ' ' then "" :: s :: ss
          else String.mk (c :: s.data) :: ss

/-- Transcribes `Parser.clean_data`'s returned value: read the data file
and split on single spaces.  The loop `for c in consts: c = int(c)` in the
source rebinds the loop variable only, so the returned list still holds
the raw strings; the loop's one observable effect — `int(c)` raising
`ValueError` on a non-integer segment — is `checkConsts` below, which
`mainRun` runs at the point `execute_tree` calls `clean_data`. -/
def clean_data (text : String) : List String :=
  splitSpaces text.data

/-- Whitespace as Python `int(...)` strips it from a literal (the ASCII
subset a whitespace-separated data file can contain). -/
def isPySpace (c : Char) : Bool :=
  c == ' ' || c == '\t' || c == '\n' || c == '\r'

/-- Decimal digit run as Python `int` accepts it after the sign: one or
more ASCII digits, single underscores allowed between digits only. -/
def parseDigitsGo (acc : Nat) : List Char → Option Nat
  | [] => some acc
  | '_' :: c :: rest =>
      if c.isDigit then parseDigitsGo (acc * 10 + (c.toNat - 48)) rest
      else none
  | '_' :: [] => none
  | c :: rest =>
      if c.isDigit then parseDigitsGo (acc * 10 + (c.toNat - 48)) rest
      else none

def parseDigits : List Char → Option Nat
  | [] => none
  | c :: rest =>
      if c.isDigit then parseDigitsGo (c.toNat - 48) rest else none

/-- Python `int(s)` on a data-file segment: optional surrounding
whitespace, an optional sign, then a decimal digit run; anything else —
in particular the empty string that `''.split(' ')` produces — raises
`ValueError`.  (Non-ASCII digits and non-decimal bases cannot occur in a
space-split data file.) -/
def pyIntParse (s : String) : Option Int :=
  let cs := ((s.data.dropWhile isPySpace).reverse.dropWhile isPySpace).reverse
  match cs with
  | '+' :: rest => (parseDigits rest).map (fun n => (n : Int))
  | '-' :: rest => (parseDigits rest).map (fun n => -(n : Int))
  | _ => (parseDigits cs).map (fun n => (n : Int))

/-- Transcribes the loop `for c in consts: c = int(c)` inside
`Parser.clean_data`: every segment is fed to `int`, whose `ValueError` on
a non-integer segment kills the run before execution starts; the converted
value is bound to the loop variable only, so the list is unchanged. -/
def checkConsts : List String → Except Err Unit
  | [] => .ok ()
  | s :: rest =>
      match pyIntParse s with
      | none => .error .valueError
      | some _ => checkConsts rest

/-! ## Abstract syntax

One type per grammar class of `Parser.py`; each constructor records exactly
the node-list shape the corresponding `parse` method can leave behind.
`If`/`While`/`Program` nodes additionally own the persistent `self.local` /
`self.program_scope` frame that `semantics` uses (and never resets); its
checking payload is `Bool` (`False` = declared, `True` = assigned). -/

inductive IdList where
  | single (x : String)
  | cons (x : String) (rest : IdList)
  deriving DecidableEq, Repr

/-- Transcribes `Decl`: `int IdList ;`. -/
structure Decl where
  ids : IdList
  deriving DecidableEq, Repr

inductive DeclSeq where
  | single (d : Decl)
  | cons (d : Decl) (rest : DeclSeq)
  deriving DecidableEq, Repr

mutual
/-- Node shape: `Expr.nodes` is `[Term]`, `[Term, ADD, Expr]` or `[Term, SUB, Expr]`. -/
inductive Expr where
  | term (t : Term)
  | add (t : Term) (e : Expr)
  | sub (t : Term) (e : Expr)
  deriving DecidableEq, Repr

/-- Node shape: `Term.nodes` is `[Factor]` or `[Factor, MULT, Term]`. -/
inductive Term where
  | factor (f : Factor)
  | mult (f : Factor) (t : Term)
  deriving DecidableEq, Repr

/-- Node shape: `Factor.nodes` is `[Id]`, `[Const]`, or the flattened output of
`Factor.expr_paren_parse`, captured structurally by `ParenGroup`. -/
inductive Factor where
  | ident (x : String)
  | const (n : Int)
  | paren (g : ParenGroup)
  deriving DecidableEq, Repr

/-- One recursion level of `Factor.expr_paren_parse`: `( Expr` followed
optionally by another level, with the matching `)` consumed on the way out. -/
inductive ParenGroup where
  | one (e : Expr)
  | more (e : Expr) (rest : ParenGroup)
  deriving DecidableEq, Repr
end

/-- Node shape: `Cmpr.nodes` is `[Expr, op, Expr]`, or `[Expr, Expr]` when the token
after the first expression was none of `==`, `<`, `<=` — `Cmpr.parse` has no
else-branch and silently parses the second expression. -/
inductive COp where
  | EQUAL | LESS | LESSEQUAL
  deriving DecidableEq, Repr

structure Cmpr where
  lhs : Expr
  op : Option COp
  rhs : Expr
  deriving DecidableEq, Repr

mutual
/-- Node shape: `Cond.nodes`: `[Cmpr]`, `[Cmpr, OR, Cond]`, or `[NEGATION] ++` the
flattened output of `Cond.cond_paren_parse` (`CondGroup`). -/
inductive Cond where
  | cmpr (c : Cmpr)
  | or (c : Cmpr) (rest : Cond)
  | neg (g : CondGroup)
  deriving DecidableEq, Repr

inductive CondGroup where
  | one (c : Cond)
  | more (c : Cond) (rest : CondGroup)
  deriving DecidableEq, Repr
end

mutual
inductive Stmt where
  | assign (x : String) (e : Expr)
  | inputS (x : String)
  | outputS (e : Expr)
  | ifS (c : Cond) (thn : StmtSeq) (frame : Frame Bool)
  | ifElseS (c : Cond) (thn : StmtSeq) (els : StmtSeq) (frame : Frame Bool)
  | whileS (c : Cond) (body : StmtSeq) (frame : Frame Bool)
  | declS (d : Decl)
  deriving DecidableEq, Repr

inductive StmtSeq where
  | single (s : Stmt)
  | seq (s : Stmt) (rest : StmtSeq)
  deriving DecidableEq, Repr
end

/-- The `Program` node: `program DeclSeq begin StmtSeq end`, owning its
persistent `program_scope` frame. -/
structure Program where
  decls : DeclSeq
  stmts : StmtSeq
  frame : Frame Bool
  deriving DecidableEq, Repr

/-! ## Parser

`Parser.token_validate` / `token_assert` followed by the `parse` method of
each node class.  Recursion gets an explicit fuel argument (`sys.exit` on
exhaustion is modelled by `Err.outOfFuel`; every theorem below supplies
enough fuel for its concrete input). -/

/-- Transcribes `Parser.token_validate`: kind comparison, abort on mismatch. -/
def tokenValidate (ts : List Tok) (expected : Tok) : Except Err Unit :=
  if (curTok ts).kindEq expected then .ok () else .error .unexpectedToken

/-- Transcribes `Parser.token_assert`: validate, then consume. -/
def tokenAssert (ts : List Tok) (expected : Tok) : Except Err (List Tok) := do
  let _ ← tokenValidate ts expected
  .ok ts.tail

/-- Transcribes `Id.parse`: `token_validate(Token.ID)` (a kind-only comparison, here the
pattern match on the `ID` constructor), record `parser.get_id()`, advance. -/
def parseIdent (ts : List Tok) : Except Err (String × List Tok) :=
  match ts with
  | .ID s :: rest => .ok (s, rest)
  | _ => .error .unexpectedToken

/-- Transcribes `Const.parse`: `token_validate(Token.CONST)`, record
`parser.get_const()`, advance. -/
def parseConst (ts : List Tok) : Except Err (Int × List Tok) :=
  match ts with
  | .CONST n :: rest => .ok (n, rest)
  | _ => .error .unexpectedToken

/-- Transcribes `IdList.parse`. -/
def parseIdList : Nat → List Tok → Except Err (IdList × List Tok)
  | 0, _ => .error .outOfFuel
  | fuel + 1, ts => do
      let (x, ts) ← parseIdent ts
      if curTok ts = .COMMA then do
        let ts ← tokenAssert ts .COMMA
        let (rest, ts) ← parseIdList fuel ts
        .ok (.cons x rest, ts)
      else
        .ok (.single x, ts)

/-- Transcribes `Decl.parse`: `int IdList ;`. -/
def parseDecl (fuel : Nat) (ts : List Tok) : Except Err (Decl × List Tok) := do
  let ts ← tokenAssert ts .INT
  let (ids, ts) ← parseIdList fuel ts
  let ts ← tokenAssert ts .SEMICOLON
  .ok (⟨ids⟩, ts)

/-- Transcribes `DeclSeq.parse`: repeat `Decl` until `begin`. -/
def parseDeclSeq : Nat → List Tok → Except Err (DeclSeq × List Tok)
  | 0, _ => .error .outOfFuel
  | fuel + 1, ts => do
      let (d, ts) ← parseDecl fuel ts
      if curTok ts ≠ .BEGIN then do
        let (rest, ts) ← parseDeclSeq fuel ts
        .ok (.cons d rest, ts)
      else
        .ok (.single d, ts)

mutual
/-- Transcribes `Expr.parse`: `Term (('+'|'-') Expr)?` — single right recursion. -/
def parseExpr : Nat → List Tok → Except Err (Expr × List Tok)
  | 0, _ => .error .outOfFuel
  | fuel + 1, ts => do
      let (t, ts) ← parseTerm fuel ts
      if curTok ts = .ADD then do
        let ts ← tokenAssert ts .ADD
        let (e, ts) ← parseExpr fuel ts
        .ok (.add t e, ts)
      else if curTok ts = .SUB then do
        let ts ← tokenAssert ts .SUB
        let (e, ts) ← parseExpr fuel ts
        .ok (.sub t e, ts)
      else
        .ok (.term t, ts)

/-- Transcribes `Term.parse`: `Factor ('*' Term)?`. -/
def parseTerm : Nat → List Tok → Except Err (Term × List Tok)
  | 0, _ => .error .outOfFuel
  | fuel + 1, ts => do
      let (f, ts) ← parseFactor fuel ts
      if curTok ts = .MULT then do
        let ts ← tokenAssert ts .MULT
        let (t, ts) ← parseTerm fuel ts
        .ok (.mult f t, ts)
      else
        .ok (.factor f, ts)

/-- Transcribes `Factor.parse`: dispatch on `ID` / `CONST` / `LPAREN`, else abort. -/
def parseFactor : Nat → List Tok → Except Err (Factor × List Tok)
  | 0, _ => .error .outOfFuel
  | fuel + 1, ts =>
      match curTok ts with
      | .ID _ => do
          let (x, ts) ← parseIdent ts
          .ok (.ident x, ts)
      | .CONST _ => do
          let (n, ts) ← parseConst ts
          .ok (.const n, ts)
      | .LPAREN => do
          let (g, ts) ← parseParenGroup fuel ts
          .ok (.paren g, ts)
      | _ => .error .invalidOperator

/-- Transcribes `Factor.expr_paren_parse`: consume `( Expr`, recurse when another `(`
follows, then consume the matching `)` of this level. -/
def parseParenGroup : Nat → List Tok → Except Err (ParenGroup × List Tok)
  | 0, _ => .error .outOfFuel
  | fuel + 1, ts => do
      let ts ← tokenAssert ts .LPAREN
      let (e, ts) ← parseExpr fuel ts
      if curTok ts = .LPAREN then do
        let (g, ts) ← parseParenGroup fuel ts
        let ts ← tokenAssert ts .RPAREN
        .ok (.more e g, ts)
      else do
        let ts ← tokenAssert ts .RPAREN
        .ok (.one e, ts)
end

/-- Transcribes `Cmpr.parse`: first `Expr`, then an `==`/`<`/`<=` token when present —
with no else-branch to reject anything else — then the second `Expr`. -/
def parseCmpr (fuel : Nat) (ts : List Tok) : Except Err (Cmpr × List Tok) := do
  let (l, ts) ← parseExpr fuel ts
  let (op, ts) ←
    if curTok ts = .EQUAL then do
      let ts ← tokenAssert ts .EQUAL
      pure (some COp.EQUAL, ts)
    else if curTok ts = .LESS then do
      let ts ← tokenAssert ts .LESS
      pure (some COp.LESS, ts)
    else if curTok ts = .LESSEQUAL then do
      let ts ← tokenAssert ts .LESSEQUAL
      pure (some COp.LESSEQUAL, ts)
    else
      pure (none, ts)
  let (r, ts) ← parseExpr fuel ts
  .ok (⟨l, op, r⟩, ts)

mutual
/-- Transcribes `Cond.parse`. -/
def parseCond : Nat → List Tok → Except Err (Cond × List Tok)
  | 0, _ => .error .outOfFuel
  | fuel + 1, ts =>
      if curTok ts = .NEGATION then do
        let ts ← tokenAssert ts .NEGATION
        let (g, ts) ← parseCondGroup fuel ts
        .ok (.neg g, ts)
      else do
        let (c, ts) ← parseCmpr fuel ts
        if curTok ts = .OR then do
          let ts ← tokenAssert ts .OR
          let (rest, ts) ← parseCond fuel ts
          .ok (.or c rest, ts)
        else
          .ok (.cmpr c, ts)

/-- Transcribes `Cond.cond_paren_parse`: same multi-`(` recursion as the `Factor` one. -/
def parseCondGroup : Nat → List Tok → Except Err (CondGroup × List Tok)
  | 0, _ => .error .outOfFuel
  | fuel + 1, ts => do
      let ts ← tokenAssert ts .LPAREN
      let (c, ts) ← parseCond fuel ts
      if curTok ts = .LPAREN then do
        let (g, ts) ← parseCondGroup fuel ts
        let ts ← tokenAssert ts .RPAREN
        .ok (.more c g, ts)
      else do
        let ts ← tokenAssert ts .RPAREN
        .ok (.one c, ts)
end

/-- Transcribes `Assign.parse`: `Id = Expr ;`. -/
def parseAssign (fuel : Nat) (ts : List Tok) : Except Err (Stmt × List Tok) := do
  let (x, ts) ← parseIdent ts
  let ts ← tokenAssert ts .ASSIGN
  let (e, ts) ← parseExpr fuel ts
  let ts ← tokenAssert ts .SEMICOLON
  .ok (.assign x e, ts)

/-- Transcribes `Input.parse`: `input Id ;`. -/
def parseInput (ts : List Tok) : Except Err (Stmt × List Tok) := do
  let ts ← tokenAssert ts .INPUT
  let (x, ts) ← parseIdent ts
  let ts ← tokenAssert ts .SEMICOLON
  .ok (.inputS x, ts)

/-- Transcribes `Output.parse`: `output Expr ;`. -/
def parseOutput (fuel : Nat) (ts : List Tok) : Except Err (Stmt × List Tok) := do
  let ts ← tokenAssert ts .OUTPUT
  let (e, ts) ← parseExpr fuel ts
  let ts ← tokenAssert ts .SEMICOLON
  .ok (.outputS e, ts)

mutual
/-- Transcribes `StmtSeq.parse`: dispatch on the current token, then repeat unless the
next token closes the enclosing block. -/
def parseStmtSeq : Nat → List Tok → Except Err (StmtSeq × List Tok)
  | 0, _ => .error .outOfFuel
  | fuel + 1, ts => do
      let (s, ts) ←
        match curTok ts with
        | .ID _ => parseAssign fuel ts
        | .INPUT => parseInput ts
        | .OUTPUT => parseOutput fuel ts
        | .IF => parseIf fuel ts
        | .WHILE => parseWhile fuel ts
        | .INT => do
            let (d, ts) ← parseDecl fuel ts
            pure (Stmt.declS d, ts)
        | _ => .error .badStatementStart
      if curTok ts ≠ .END ∧ curTok ts ≠ .ENDIF ∧
          curTok ts ≠ .ENDWHILE ∧ curTok ts ≠ .ELSE then do
        let (rest, ts) ← parseStmtSeq fuel ts
        .ok (.seq s rest, ts)
      else
        .ok (.single s, ts)

/-- Transcribes `If.parse`: `if Cond then StmtSeq (else StmtSeq)? endif`; the node's
`self.local` frame starts out empty. -/
def parseIf : Nat → List Tok → Except Err (Stmt × List Tok)
  | 0, _ => .error .outOfFuel
  | fuel + 1, ts => do
      let ts ← tokenAssert ts .IF
      let (c, ts) ← parseCond fuel ts
      let ts ← tokenAssert ts .THEN
      let (thn, ts) ← parseStmtSeq fuel ts
      if curTok ts = .ELSE then do
        let ts ← tokenAssert ts .ELSE
        let (els, ts) ← parseStmtSeq fuel ts
        let ts ← tokenAssert ts .ENDIF
        .ok (.ifElseS c thn els [], ts)
      else do
        let ts ← tokenAssert ts .ENDIF
        .ok (.ifS c thn [], ts)

/-- Transcribes `While.parse`: `while Cond begin StmtSeq endwhile`. -/
def parseWhile : Nat → List Tok → Except Err (Stmt × List Tok)
  | 0, _ => .error .outOfFuel
  | fuel + 1, ts => do
      let ts ← tokenAssert ts .WHILE
      let (c, ts) ← parseCond fuel ts
      let ts ← tokenAssert ts .BEGIN
      let (body, ts) ← parseStmtSeq fuel ts
      let ts ← tokenAssert ts .ENDWHILE
      .ok (.whileS c body [], ts)
end

/-- Transcribes `Program.parse`: the full pipeline entry, including the trailing-token
check (`parser.token() != Token.ERROR` aborts the run). -/
def parseProgram (fuel : Nat) (ts : List Tok) : Except Err (Program × List Tok) := do
  let ts ← tokenAssert ts .PROGRAM
  let (ds, ts) ← parseDeclSeq fuel ts
  let ts ← tokenAssert ts .BEGIN
  let (ss, ts) ← parseStmtSeq fuel ts
  let ts ← tokenAssert ts .END
  if curTok ts ≠ .ERROR then .error .trailingTokens
  else .ok (⟨ds, ss, []⟩, ts)

/-! ## Semantic checker

`*.semantics` of `Parser.py`.  The Python code threads a `parent` role
string (`None`, `'get'`, `'declare'`, `'assign'`, `'call'`) and a `scope`
frame reference; here the role is the `Role` enum and the reference is the
frame's index in the checker's chain.  Functions that can update a node's
persistent frame return the updated node alongside the chain. -/

/-- The `parent`/`caller` tags passed around by `Parser.py` (Python uses
`None` and the strings `'get'`, `'declare'`, `'assign'`, `'call'`,
`'expr'`). -/
inductive Role where
  | top        -- Python None
  | get
  | declare
  | assign
  | call
  | xpr        -- the 'expr' tag Expr.execute hands to its first Term
  deriving DecidableEq, Repr

/-- The checker's scope state: payload `Bool` (`False` = declared but not
yet assigned, `True` = assigned somewhere). -/
abbrev SChain := Chain Bool

/-- Transcribes `Id.semantics`: role dispatch on a single identifier occurrence.  Roles
other than `'get'`/`'declare'`/`'assign'` — notably the `'call'` tag that
`Output.semantics` passes and the `None` that conditions receive — match no
branch and do nothing. -/
def Ident.semantics (n : String) (parent : Role) (scope : Nat) (c : SChain) :
    Except Err SChain :=
  match parent with
  | .get =>
      -- if tree is None or not tree.dict[node]: exit
      match c.dfs n with
      | none => .error (.notInstantiated n)
      | some j =>
          match (c.getFrame j).get? n with
          | some true => .ok c
          | _ => .error (.notInstantiated n)
  | .declare =>
      -- if node not in scope.dict: scope.dict[node] = False else exit
      if (c.getFrame scope).hasKey n then .error (.declaredTwice n)
      else .ok (c.setFrame scope ((c.getFrame scope) ++ [(n, false)]))
  | .assign =>
      -- if tree is None: exit else tree.dict[node] = True
      match c.dfs n with
      | none => .error (.notDeclared n)
      | some j => .ok (c.setFrame j ((c.getFrame j).set n true))
  | _ => .ok c

/-- Transcribes `IdList.semantics`: forward the role to each identifier in order. -/
def IdList.semantics : IdList → Role → Nat → SChain → Except Err SChain
  | .single x, r, i, c => Ident.semantics x r i c
  | .cons x rest, r, i, c => do
      let c ← Ident.semantics x r i c
      rest.semantics r i c

/-- Transcribes `Decl.semantics`: the identifiers get the `'declare'` tag. -/
def Decl.semantics (d : Decl) (i : Nat) (c : SChain) : Except Err SChain :=
  d.ids.semantics .declare i c

/-- Transcribes `DeclSeq.semantics`: forward the role to each declaration. -/
def DeclSeq.semantics : DeclSeq → Nat → SChain → Except Err SChain
  | .single d, i, c => d.semantics i c
  | .cons d rest, i, c => do
      let c ← d.semantics i c
      rest.semantics i c

mutual
/-- Transcribes `Expr.semantics`: forward `parent` to the children in node order. -/
def Expr.semantics : Expr → Role → Nat → SChain → Except Err SChain
  | .term t, r, i, c => t.semantics r i c
  | .add t e, r, i, c => do
      let c ← t.semantics r i c
      e.semantics r i c
  | .sub t e, r, i, c => do
      let c ← t.semantics r i c
      e.semantics r i c

/-- Transcribes `Term.semantics`. -/
def Term.semantics : Term → Role → Nat → SChain → Except Err SChain
  | .factor f, r, i, c => f.semantics r i c
  | .mult f t, r, i, c => do
      let c ← f.semantics r i c
      t.semantics r i c

/-- Transcribes `Factor.semantics`: identifiers get the incoming role;
`Const.semantics` is a no-op; a paren factor visits every expression the
paren recursion collected. -/
def Factor.semantics : Factor → Role → Nat → SChain → Except Err SChain
  | .ident x, r, i, c => Ident.semantics x r i c
  | .const _, _, _, c => .ok c
  | .paren g, r, i, c => g.semantics r i c

/-- The expressions collected by `Factor.expr_paren_parse`, in node order. -/
def ParenGroup.semantics : ParenGroup → Role → Nat → SChain → Except Err SChain
  | .one e, r, i, c => e.semantics r i c
  | .more e g, r, i, c => do
      let c ← e.semantics r i c
      g.semantics r i c
end

/-- Transcribes `Cmpr.semantics`: both expressions with the incoming role. -/
def Cmpr.semantics (cm : Cmpr) (r : Role) (i : Nat) (c : SChain) :
    Except Err SChain := do
  let c ← cm.lhs.semantics r i c
  cm.rhs.semantics r i c

mutual
/-- Transcribes `Cond.semantics`. -/
def Cond.semantics : Cond → Role → Nat → SChain → Except Err SChain
  | .cmpr cm, r, i, c => cm.semantics r i c
  | .or cm rest, r, i, c => do
      let c ← cm.semantics r i c
      rest.semantics r i c
  | .neg g, r, i, c => g.semantics r i c

/-- The conditions collected by `Cond.cond_paren_parse`, in node order. -/
def CondGroup.semantics : CondGroup → Role → Nat → SChain → Except Err SChain
  | .one cd, r, i, c => cd.semantics r i c
  | .more cd g, r, i, c => do
      let c ← cd.semantics r i c
      g.semantics r i c
end

mutual
/-- Transcribes `Stmt`-level checking; `If`/`While` attach their persistent `self.local`
frame below the current scope, check their children against it, save the
(in-place mutated) frame back into the node at the closing token and detach
it. -/
def Stmt.semantics : Stmt → Role → Nat → SChain → Except Err (Stmt × SChain)
  | .assign x e, _, i, c => do
      -- Assign.semantics hands 'assign' to BOTH the target Id and the Expr
      let c ← Ident.semantics x .assign i c
      let c ← e.semantics .assign i c
      .ok (.assign x e, c)
  | .inputS x, _, i, c => do
      -- Input.semantics: only the Id, with 'assign'
      let c ← Ident.semantics x .assign i c
      .ok (.inputS x, c)
  | .outputS e, _, i, c => do
      -- Output.semantics: the Expr with the unhandled 'call' tag
      let c ← e.semantics .call i c
      .ok (.outputS e, c)
  | .declS d, _, i, c => do
      let c ← d.semantics i c
      .ok (.declS d, c)
  | .ifS cond thn fr, r, i, c => do
      let c := c.truncAttach i fr               -- scope.child = self.local
      let c ← cond.semantics r (i + 1) c
      let (thn, c) ← thn.semantics r (i + 1) c
      .ok (.ifS cond thn (c.getFrame (i + 1)), c.trunc i)  -- ENDIF
  | .ifElseS cond thn els fr, r, i, c => do
      let c := c.truncAttach i fr
      let c ← cond.semantics r (i + 1) c
      let (thn, c) ← thn.semantics r (i + 1) c
      let (els, c) ← els.semantics r (i + 1) c
      .ok (.ifElseS cond thn els (c.getFrame (i + 1)), c.trunc i)
  | .whileS cond body fr, r, i, c => do
      let c := c.truncAttach i fr               -- scope.child = self.local
      let c ← cond.semantics r (i + 1) c
      let (body, c) ← body.semantics r (i + 1) c
      .ok (.whileS cond body (c.getFrame (i + 1)), c.trunc i)  -- ENDWHILE

/-- Transcribes `StmtSeq.semantics`. -/
def StmtSeq.semantics : StmtSeq → Role → Nat → SChain → Except Err (StmtSeq × SChain)
  | .single s, r, i, c => do
      let (s, c) ← s.semantics r i c
      .ok (StmtSeq.single s, c)
  | .seq s rest, r, i, c => do
      let (s, c) ← s.semantics r i c
      let (rest, c) ← rest.semantics r i c
      .ok (StmtSeq.seq s rest, c)
end

/-- Transcribes `Program.semantics`: declarations against the global frame, then on the
`BEGIN` marker attach the program's persistent `program_scope` frame
(overwriting `parser.global_scope.child`) and check the statements against
it.  Nothing detaches it afterwards, and no frame is ever reset — the final
chain and node frames are exactly what a second checking run would start
from. -/
def Program.semantics (p : Program) (c : SChain) :
    Except Err (Program × SChain) := do
  let c ← p.decls.semantics 0 c
  let c := c.truncAttach 0 p.frame              -- parser.global_scope.child = program_scope
  let (ss, c) ← p.stmts.semantics .top 1 c
  .ok ({ decls := p.decls, stmts := ss, frame := c.getFrame 1 }, c)

/-! ## Interpreter

`*.execute` of `Parser.py`.  Runtime scope payloads are `Option Val`
(`none` is Python's `None` for declared-but-unset).  The binary operators
are Python's dynamically typed `+`, `-`, `*`, `<`, `<=`, `==` restricted to
the `int`/`str` values that can actually flow through this interpreter;
a combination Python rejects raises `TypeError` (`Err.typeError`).

The Python methods also thread a `caller` tag through expression
evaluation, but no expression path ever reads it: `Factor.execute` forces
`'get'` for identifiers and `Const.execute` ignores it, so the embedding
drops that argument. -/

abbrev VChain := Chain (Option Val)

/-- Python `a + b`: ints add, strings concatenate, mixing raises. -/
def pyAdd : Val → Val → Except Err Val
  | .int a, .int b => .ok (.int (a + b))
  | .str a, .str b => .ok (.str (a ++ b))
  | _, _ => .error .typeError

/-- Python `a - b`: ints only. -/
def pySub : Val → Val → Except Err Val
  | .int a, .int b => .ok (.int (a - b))
  | _, _ => .error .typeError

/-- Python `a * b`: ints multiply; `str * int` (either order) repeats the
string, with non-positive counts yielding the empty string. -/
def pyMul : Val → Val → Except Err Val
  | .int a, .int b => .ok (.int (a * b))
  | .str a, .int b => .ok (.str (String.join (List.replicate b.toNat a)))
  | .int a, .str b => .ok (.str (String.join (List.replicate a.toNat b)))
  | _, _ => .error .typeError

/-- Python `a < b`: ints numerically, strings lexicographically, mixing
raises `TypeError`. -/
def pyLt : Val → Val → Except Err Bool
  | .int a, .int b => .ok (decide (a < b))
  | .str a, .str b => .ok (decide (a < b))
  | _, _ => .error .typeError

/-- Python `a <= b`. -/
def pyLe : Val → Val → Except Err Bool
  | .int a, .int b => .ok (decide (a ≤ b))
  | .str a, .str b => .ok (decide (a ≤ b))
  | _, _ => .error .typeError

/-- Python `a == b`: mixed `int`/`str` compares unequal without raising. -/
def pyEq : Val → Val → Except Err Bool
  | .int a, .int b => .ok (a == b)
  | .str a, .str b => .ok (a == b)
  | _, _ => .ok false

/-- Transcribes `Id.execute` with `caller == 'get'`: resolve through `dfs_scope` from
the global root; abort when unresolved or still `None`. -/
def Ident.execGet (n : String) (c : VChain) : Except Err Val :=
  match c.dfs n with
  | none => .error (.notInstantiated n)
  | some j =>
      match (c.getFrame j).get? n with
      | some (some v) => .ok v
      | _ => .error (.notInstantiated n)

/-- Transcribes `Id.execute` with `caller == 'declare'`: insert `None` into the frame
the `local` argument aliases, abort on a duplicate. -/
def Ident.execDeclare (n : String) (i : Nat) (c : VChain) : Except Err VChain :=
  if (c.getFrame i).hasKey n then .error (.declaredTwice n)
  else .ok (c.setFrame i ((c.getFrame i) ++ [(n, none)]))

/-- Transcribes `Id.execute` with `caller == 'assign'`: resolve the owning frame (the
Python code returns the frame object; here its chain index). -/
def Ident.execAssign (n : String) (c : VChain) : Except Err Nat :=
  match c.dfs n with
  | none => .error (.notDeclared n)
  | some j => .ok j

/-- Transcribes `IdList.execute` as invoked by `Decl.execute` (caller `'declare'`). -/
def IdList.execDeclare : IdList → Nat → VChain → Except Err VChain
  | .single x, i, c => Ident.execDeclare x i c
  | .cons x rest, i, c => do
      let c ← Ident.execDeclare x i c
      rest.execDeclare i c

/-- Transcribes `Decl.execute`: the identifiers get the `'declare'` caller. -/
def Decl.exec (d : Decl) (i : Nat) (c : VChain) : Except Err VChain :=
  d.ids.execDeclare i c

/-- Transcribes `DeclSeq.execute`. -/
def DeclSeq.exec : DeclSeq → Nat → VChain → Except Err VChain
  | .single d, i, c => d.exec i c
  | .cons d rest, i, c => do
      let c ← d.exec i c
      rest.exec i c

mutual
/-- Transcribes `Expr.execute`: evaluate the first term, then `val += ...` or
`val -= ...` with the recursively evaluated right expression. -/
def Expr.eval : Expr → VChain → Except Err Val
  | .term t, c => t.eval c
  | .add t e, c => do
      let v ← t.eval c
      let w ← e.eval c
      pyAdd v w
  | .sub t e, c => do
      let v ← t.eval c
      let w ← e.eval c
      pySub v w

/-- Transcribes `Term.execute`: `val *= ...` when a `MULT` token follows. -/
def Term.eval : Term → VChain → Except Err Val
  | .factor f, c => f.eval c
  | .mult f t, c => do
      let v ← f.eval c
      let w ← t.eval c
      pyMul v w

/-- Transcribes `Factor.execute`: constants evaluate to themselves, identifiers are
read with `'get'`, and a paren factor returns `self.nodes[1]` — the first
collected expression only. -/
def Factor.eval : Factor → VChain → Except Err Val
  | .ident x, c => Ident.execGet x c
  | .const n, _ => .ok (.int n)
  | .paren (.one e), c => e.eval c
  | .paren (.more e _), c => e.eval c
end

/-- Transcribes `Cmpr.execute`: evaluate the left expression, dispatch on the operator
token; with no operator token recorded, `self.nodes[1]` is the second
expression, so the `else` branch's `self.nodes[2]` subscript raises
`IndexError`. -/
def Cmpr.eval (cm : Cmpr) (c : VChain) : Except Err Bool := do
  let v ← cm.lhs.eval c
  match cm.op with
  | some .LESS => do
      let w ← cm.rhs.eval c
      pyLt v w
  | some .EQUAL => do
      let w ← cm.rhs.eval c
      pyEq v w
  | some .LESSEQUAL => do
      let w ← cm.rhs.eval c
      pyLe v w
  | none => .error .indexError

/-- Transcribes `Cond.execute`: `val |= rhs` evaluates the right condition before
or-ing, regardless of the left value; negation reads `self.nodes[2]`, the
first collected condition. -/
def Cond.eval : Cond → VChain → Except Err Bool
  | .cmpr cm, c => cm.eval c
  | .or cm rest, c => do
      let v ← cm.eval c
      let w ← rest.eval c
      .ok (v || w)
  | .neg (.one cd), c => do
      let v ← cd.eval c
      .ok (!v)
  | .neg (.more cd _), c => do
      let v ← cd.eval c
      .ok (!v)

/-- The interpreter's state: the live scope chain, the remaining input
queue (strings, as `clean_data` leaves them) and the values printed so
far. -/
structure ExecSt where
  chain : VChain
  data : List String
  outp : List Val
  deriving DecidableEq, Repr

mutual
/-- Transcribes `Stmt`-level execution.  `If.execute` and `While.execute` replace their
`self.local` with a fresh frame and attach it below the frame the `local`
argument aliases (index `i`); `If` runs its branch with the fresh frame as
`local` (index `i + 1`) while `While` runs its body with the PARENT frame
as `local` (index `i`, as in `stmt.execute(parser, caller, local)`). -/
def Stmt.exec : Nat → Stmt → Nat → ExecSt → Except Err ExecSt
  | 0, _, _, _ => .error .outOfFuel
  | _ + 1, .assign x e, _, st => do
      let j ← Ident.execAssign x st.chain
      let v ← e.eval st.chain
      .ok { st with chain := st.chain.setFrame j ((st.chain.getFrame j).set x (some v)) }
  | _ + 1, .inputS x, _, st => do
      let j ← Ident.execAssign x st.chain
      match st.data with
      | [] => .error .insufficientData
      | s :: rest =>
          .ok { st with
                chain := st.chain.setFrame j ((st.chain.getFrame j).set x (some (.str s))),
                data := rest }
  | _ + 1, .outputS e, _, st => do
      let v ← e.eval st.chain
      .ok { st with outp := st.outp ++ [v] }
  | _ + 1, .declS d, i, st => do
      let c ← d.ids.execDeclare i st.chain
      .ok { st with chain := c }
  | fuel + 1, .ifS cond thn _, i, st => do
      let c := st.chain.truncAttach i []        -- fresh self.local attached
      let b ← cond.eval c
      if b then do
        let st ← thn.exec fuel (i + 1) { st with chain := c }
        .ok { st with chain := st.chain.trunc i }   -- local.child = None
      else
        .ok { st with chain := c.trunc i }
  | fuel + 1, .ifElseS cond thn els _, i, st => do
      let c := st.chain.truncAttach i []
      let b ← cond.eval c
      if b then do
        let st ← thn.exec fuel (i + 1) { st with chain := c }
        .ok { st with chain := st.chain.trunc i }
      else do
        let st ← els.exec fuel (i + 1) { st with chain := c }
        .ok { st with chain := st.chain.trunc i }
  | fuel + 1, .whileS cond body _, i, st =>
      whileLoop fuel cond body i { st with chain := st.chain.truncAttach i [] }

/-- Transcribes `StmtSeq.execute`. -/
def StmtSeq.exec : Nat → StmtSeq → Nat → ExecSt → Except Err ExecSt
  | 0, _, _, _ => .error .outOfFuel
  | fuel + 1, .single s, i, st => s.exec fuel i st
  | fuel + 1, .seq s rest, i, st => do
      let st ← s.exec fuel i st
      rest.exec fuel i st

/-- The `while cond.execute(...): stmt.execute(...)` loop of
`While.execute`; the body runs against the parent frame (index `i`), and
`local.child = None` detaches the loop frame once the condition fails. -/
def whileLoop : Nat → Cond → StmtSeq → Nat → ExecSt → Except Err ExecSt
  | 0, _, _, _, _ => .error .outOfFuel
  | fuel + 1, cond, body, i, st => do
      let b ← cond.eval st.chain
      if b then do
        let st ← body.exec fuel i st
        whileLoop fuel cond body i st
      else
        .ok { st with chain := st.chain.trunc i }
end

/-- Transcribes `Program.execute` after `Parser.execute_tree` reset the global scope:
declarations run against the fresh global frame; at the `BEGIN` marker the
freshly re-created `program_scope` is attached and the statements run
against it.  Returns the printed values. -/
def Program.exec (fuel : Nat) (p : Program) (data : List String) :
    Except Err (List Val) := do
  let st : ExecSt := ⟨⟨[], []⟩, data, []⟩
  let c ← p.decls.exec 0 st.chain
  let st := { st with chain := c.truncAttach 0 [] }
  let st ← p.stmts.exec fuel 1 st
  .ok st.outp

/-- Transcribes `Main.main`: build the tree (parse, then check — the check
mutates the node frames of the very tree that is executed afterwards),
then execute it against the data file's contents.  `execute_tree` calls
`Parser.clean_data` first, so its `int(c)` validation loop
(`checkConsts`) runs — and can abort with `ValueError` — before any
statement executes. -/
def mainRun (fuel : Nat) (toks : List Tok) (dataText : String) :
    Except Err (List Val) := do
  let (p, _) ← parseProgram fuel toks
  let (p1, _) ← Program.semantics p ⟨[], []⟩
  let _ ← checkConsts (clean_data dataText)
  Program.exec fuel p1 (clean_data dataText)

/-! ## Support definitions for the claims -/

/-- An expression that is a bare identifier read. -/
def identExpr (x : String) : Expr := .term (.factor (.ident x))

/-- An expression that is a bare constant. -/
def constExpr (n : Int) : Expr := .term (.factor (.const n))

/-- The additive operators of `Expr`, for quantifying over `+`/`-`. -/
inductive AOp where
  | ADD | SUB
  deriving DecidableEq, Repr

def AOp.tok : AOp → Tok
  | .ADD => .ADD
  | .SUB => .SUB

def AOp.node : AOp → Term → Expr → Expr
  | .ADD => .add
  | .SUB => .sub

def AOp.denote : AOp → Int → Int → Int
  | .ADD => fun a b => a + b
  | .SUB => fun a b => a - b

/-- The name declared by the first `Decl` of the program — the first
identifier the checker processes with the `'declare'` tag. -/
def IdList.firstName : IdList → String
  | .single x => x
  | .cons x _ => x

def DeclSeq.firstName : DeclSeq → String
  | .single d => d.ids.firstName
  | .cons d _ => d.ids.firstName

def Program.firstDeclName (p : Program) : String := p.decls.firstName

/-- Root-frame keys only ever grow during checking: the relation a single
checking step preserves. -/
def RootKeep (c c' : SChain) : Prop :=
  ∀ n, Frame.hasKey c.root n = true → Frame.hasKey c'.root n = true

/-- C1 program: `program int x ; begin output y ; end` (with `y` declared
nowhere). -/
def c1toks : List Tok :=
  [.PROGRAM, .INT, .ID "x", .SEMICOLON, .BEGIN,
   .OUTPUT, .ID "y", .SEMICOLON, .END, .ERROR]

def c1prog : Program :=
  ⟨.single ⟨.single "x"⟩, .single (.outputS (identExpr "y")), []⟩

/-- C2 program family: `program int x ; begin x = 0 ;
while x < N begin int y ; y = 1 ; x = x + 1 ; endwhile output x ; end`,
with the `While` node's persistent frame exposed as a parameter (checking
fills it in; parsing leaves it empty). -/
def c2body : StmtSeq :=
  .seq (.declS ⟨.single "y"⟩)
    (.seq (.assign "y" (constExpr 1))
      (.single (.assign "x" (.add (.factor (.ident "x")) (constExpr 1)))))

def c2cond (N : Int) : Cond := .cmpr ⟨identExpr "x", some .LESS, constExpr N⟩

def c2progCore (N : Int) (fr : Frame Bool) : Program :=
  ⟨.single ⟨.single "x"⟩,
   .seq (.assign "x" (constExpr 0))
     (.seq (.whileS (c2cond N) c2body fr)
       (.single (.outputS (identExpr "x")))),
   []⟩

def c2progN (N : Int) : Program := c2progCore N []

def c2toks : List Tok :=
  [.PROGRAM, .INT, .ID "x", .SEMICOLON, .BEGIN,
   .ID "x", .ASSIGN, .CONST 0, .SEMICOLON,
   .WHILE, .ID "x", .LESS, .CONST 2, .BEGIN,
   .INT, .ID "y", .SEMICOLON,
   .ID "y", .ASSIGN, .CONST 1, .SEMICOLON,
   .ID "x", .ASSIGN, .ID "x", .ADD, .CONST 1, .SEMICOLON, .ENDWHILE,
   .OUTPUT, .ID "x", .SEMICOLON, .END, .ERROR]

/-- The interpreter state of the C2 family on reaching the loop head:
`x = 0` in the global frame, program frame and fresh loop frame attached. -/
def c2chain0 : VChain := ⟨[("x", some (.int 0))], [[], []]⟩

def c2st0 : ExecSt := ⟨c2chain0, [], []⟩

/-- After the first iteration: `y` was declared into the PARENT (program)
frame — `While.execute` hands the body `local`, not `self.local` — then
assigned `1`, and `x` stepped to `1`. -/
def c2chain1 : VChain := ⟨[("x", some (.int 1))], [[("y", some (.int 1))], []]⟩

def c2st1 : ExecSt := ⟨c2chain1, [], []⟩

/-- C3 program: `program int x ; begin input x ;
while x < 3 begin x = x + 1 ; endwhile output x ; end` — the spec's
end-to-end scenario 3 (its condition written without the parentheses the
spec sketch shows, which this grammar's `Cond` does not accept). -/
def c3toks : List Tok :=
  [.PROGRAM, .INT, .ID "x", .SEMICOLON, .BEGIN,
   .INPUT, .ID "x", .SEMICOLON,
   .WHILE, .ID "x", .LESS, .CONST 3, .BEGIN,
   .ID "x", .ASSIGN, .ID "x", .ADD, .CONST 1, .SEMICOLON, .ENDWHILE,
   .OUTPUT, .ID "x", .SEMICOLON, .END, .ERROR]

def c3prog : Program :=
  ⟨.single ⟨.single "x"⟩,
   .seq (.inputS "x")
     (.seq (.whileS (.cmpr ⟨identExpr "x", some .LESS, constExpr 3⟩)
         (.single (.assign "x" (.add (.factor (.ident "x")) (constExpr 1)))) [])
       (.single (.outputS (identExpr "x")))),
   []⟩

/-- C3, the spec's literal spelling `while ( x < 3 )`: a parenthesized
condition, which `Cond`/`Cmpr` route through `Factor`'s paren rule, where
the `<` after the inner expression fails the `RPAREN` assertion. -/
def c3toksParen : List Tok :=
  [.PROGRAM, .INT, .ID "x", .SEMICOLON, .BEGIN,
   .INPUT, .ID "x", .SEMICOLON,
   .WHILE, .LPAREN, .ID "x", .LESS, .CONST 3, .RPAREN, .BEGIN,
   .ID "x", .ASSIGN, .ID "x", .ADD, .CONST 1, .SEMICOLON, .ENDWHILE,
   .OUTPUT, .ID "x", .SEMICOLON, .END, .ERROR]

/-- C4 program: `program int x ; begin x = 1 ; end`. -/
def c4toks : List Tok :=
  [.PROGRAM, .INT, .ID "x", .SEMICOLON, .BEGIN,
   .ID "x", .ASSIGN, .CONST 1, .SEMICOLON, .END, .ERROR]

def c4prog : Program :=
  ⟨.single ⟨.single "x"⟩, .single (.assign "x" (constExpr 1)), []⟩

/-- C6 expression: `2^63 + 2^63`, straddling the 64-bit bound. -/
def c6bigSum : Expr := .add (.factor (.const (2 ^ 63))) (constExpr (2 ^ 63))

/-- C9 left operand: `1 == 1`, which evaluates to true. -/
def c9true : Cmpr := ⟨constExpr 1, some .EQUAL, constExpr 1⟩

/-- C9 right operand: a comparison reading the undeclared `z`, whose
evaluation aborts. -/
def c9bad : Cond := .cmpr ⟨identExpr "z", some .EQUAL, constExpr 0⟩

/-- The scope tree a root-first frame list denotes (root on top, each
further frame the single attached child of the previous one). -/
def chainToTree {α} : Frame α → List (Frame α) → STree α
  | f, [] => .mk f none
  | f, g :: rest => .mk f (some (chainToTree g rest))

/-! ## Theorems -/

/-- Transcribes `dfs_scope` computed over the leaf-first frame list: the first listed
frame containing the variable is the innermost one. -/
theorem dfs_scope_eq_find {α : Type} :
    ∀ (t : STree α) (v : String),
      dfs_scope t v = t.leafFirst.find? (fun s => Frame.hasKey s.dct v)
  | .mk d none, v => by
      simp only [dfs_scope, STree.leafFirst, List.find?, STree.dct]
      cases hd : Frame.hasKey d v <;> simp [hd]
  | .mk d (some c), v => by
      have ih := dfs_scope_eq_find c v
      simp only [dfs_scope, STree.leafFirst, List.find?_append, ← ih]
      cases h : dfs_scope c v with
      | none =>
          simp only [List.find?, STree.dct, Option.none_or]
          cases hd : Frame.hasKey d v <;> simp [hd]
      | some sub =>
          have hp : Frame.hasKey sub.dct v = true := by
            have := List.find?_some (ih.symm.trans h)
            simpa using this
          simp [hp]

/-- The interpreter's chain-index search agrees with the verbatim
`dfs_scope` tree search: both name the dictionary of the innermost attached
frame containing the variable. -/
theorem chain_dfs_agrees {α : Type} :
    ∀ (f : Frame α) (rest : List (Frame α)) (v : String),
      (dfsList (f :: rest) v).map (fun i => (f :: rest).getD i []) =
        (dfs_scope (chainToTree f rest) v).map STree.dct
  | f, [], v => by
      simp only [dfsList, chainToTree, dfs_scope]
      cases hd : Frame.hasKey f v <;> simp [hd, STree.dct]
  | f, g :: rest, v => by
      have ih := chain_dfs_agrees g rest v
      have e1 : dfsList (f :: g :: rest) v =
          (match dfsList (g :: rest) v with
           | some i => some (i + 1)
           | none => if Frame.hasKey f v then some 0 else none) := rfl
      have e2 : dfs_scope (chainToTree f (g :: rest)) v =
          (match dfs_scope (chainToTree g rest) v with
           | some sub =>
               if Frame.hasKey sub.dct v then some sub
               else if Frame.hasKey f v then
                 some (.mk f (some (chainToTree g rest))) else none
           | none =>
               if Frame.hasKey f v then
                 some (.mk f (some (chainToTree g rest))) else none) := rfl
      cases h1 : dfsList (g :: rest) v with
      | some j =>
          cases h2 : dfs_scope (chainToTree g rest) v with
          | none => rw [h1, h2] at ih; simp at ih
          | some sub =>
              rw [h1, h2] at ih
              simp only [Option.map_some'] at ih
              have hp : Frame.hasKey sub.dct v = true := by
                have e := (dfs_scope_eq_find (chainToTree g rest) v).symm.trans h2
                simpa using List.find?_some e
              rw [e1, e2, h1, h2]
              simp only [hp, if_true, Option.map_some']
              simpa [List.getD] using ih
      | none =>
          cases h2 : dfs_scope (chainToTree g rest) v with
          | some sub => rw [h1, h2] at ih; simp at ih
          | none =>
              rw [e1, e2, h1, h2]
              cases hd : Frame.hasKey f v <;> simp [hd, STree.dct]

/-- C8.  `Parser.dfs_scope` resolves a name to the innermost attached frame
whose dictionary contains it (the first hit in the leaf-first listing of
the chain), and to nothing when no attached frame contains it — so an
inner-scope declaration shadows an outer one of the same name. -/
theorem claim_C8 {α : Type} (t : STree α) (v : String) :
    dfs_scope t v = t.leafFirst.find? (fun s => Frame.hasKey s.dct v) :=
  dfs_scope_eq_find t v

/-- Exhibit for the restored `clean_data` validation path: on an empty
data file text, `''.split(' ')` yields `['']` and `int('')` raises, so
the pipeline dies with `ValueError` before execution starts. -/
theorem mainRun_empty_data : mainRun 20 c1toks "" = .error .valueError :=
  rfl

/-- C1.  The checking pass and the execution pass do NOT agree on
`UndeclaredVariable`: `program int x ; begin output y ; end` parses, the
checking pass succeeds (`Output.semantics` tags its expression `'call'`,
which `Id.semantics` ignores — its `'get'` branch is dead code), yet
execution aborts reading the undeclared `y`.  The claim says checking must
already have rejected it.  The end-to-end conjunct runs the pipeline with
the well-formed data file text `0` (the program reads no input, but an
ill-formed data file would already die in `clean_data`'s `int(c)` loop). -/
theorem claim_C1 :
    parseProgram 20 c1toks = .ok (c1prog, [.ERROR])
    ∧ Program.semantics c1prog ⟨[], []⟩ = .ok (c1prog, ⟨[("x", false)], [[]]⟩)
    ∧ Program.exec 20 c1prog [] = .error (.notInstantiated "y")
    ∧ mainRun 20 c1toks "0" = .error (.notInstantiated "y") :=
  ⟨rfl, rfl, rfl, rfl⟩

/-- C2, counterexample.  A loop body that declares `y`, with a condition
that stays true for two iterations, parses and checks, but execution aborts
during the SECOND iteration with a duplicate-declaration error instead of
completing it: `Decl`'s execute-time duplicate guard fires when the body's
declaration is re-executed. -/
theorem claim_C2_counterexample :
    parseProgram 30 c2toks = .ok (c2progN 2, [.ERROR])
    ∧ Program.semantics (c2progN 2) ⟨[], []⟩ =
        .ok (c2progCore 2 [("y", true)], ⟨[("x", true)], [[]]⟩)
    ∧ Program.exec 30 (c2progCore 2 [("y", true)]) [] =
        .error (.declaredTwice "y") :=
  ⟨rfl, rfl, rfl⟩

/-- C2, amended.  A variable declared inside a `while` body is not reset
between iterations — but precisely because the frame it landed in is
reused, re-executing the declaration on the second iteration trips the
execute-time duplicate guard and aborts the run with a
duplicate-declaration error, so execution never completes the second
iteration.  Shown for the loops `while x < N` (any bound `N ≥ 2`, i.e. any
condition that survives at least two iterations) with body
`int y ; y = 1 ; x = x + 1 ;`. -/
theorem claim_C2_amended (N : Int) (hN : 2 ≤ N) :
    Program.exec 30 (c2progN N) [] = .error (.declaredTwice "y") := by
  have h0 : decide ((0 : Int) < N) = true := decide_eq_true (by omega)
  have h1 : decide ((1 : Int) < N) = true := decide_eq_true (by omega)
  have cond0 : Cond.eval (c2cond N) c2chain0 = .ok true := by
    rw [show Cond.eval (c2cond N) c2chain0 = .ok (decide ((0 : Int) < N)) from rfl, h0]
  have cond1 : Cond.eval (c2cond N) c2chain1 = .ok true := by
    rw [show Cond.eval (c2cond N) c2chain1 = .ok (decide ((1 : Int) < N)) from rfl, h1]
  have body1 : StmtSeq.exec 26 c2body 1 c2st0 = .ok c2st1 := rfl
  have body2 : StmtSeq.exec 25 c2body 1 c2st1 = .error (.declaredTwice "y") := rfl
  have w2 : whileLoop 26 (c2cond N) c2body 1 c2st1 =
      Except.bind (Cond.eval (c2cond N) c2chain1) (fun b =>
        if b then
          Except.bind (StmtSeq.exec 25 c2body 1 c2st1)
            (whileLoop 25 (c2cond N) c2body 1)
        else Except.ok { c2st1 with chain := c2chain1.trunc 1 }) := rfl
  have loop2 : whileLoop 26 (c2cond N) c2body 1 c2st1 = .error (.declaredTwice "y") := by
    rw [w2, cond1]
    simp only [Except.bind, if_true]
    rw [body2]
  have w1 : whileLoop 27 (c2cond N) c2body 1 c2st0 =
      Except.bind (Cond.eval (c2cond N) c2chain0) (fun b =>
        if b then
          Except.bind (StmtSeq.exec 26 c2body 1 c2st0)
            (whileLoop 26 (c2cond N) c2body 1)
        else Except.ok { c2st0 with chain := c2chain0.trunc 1 }) := rfl
  have loop1 : whileLoop 27 (c2cond N) c2body 1 c2st0 = .error (.declaredTwice "y") := by
    rw [w1, cond0]
    simp only [Except.bind, if_true]
    rw [body1]
    simp only [Except.bind]
    exact loop2
  have main : Program.exec 30 (c2progN N) [] =
      Except.bind (Except.bind (whileLoop 27 (c2cond N) c2body 1 c2st0)
          (fun st => StmtSeq.exec 28 (StmtSeq.single (.outputS (identExpr "x"))) 1 st))
        (fun st => Except.ok st.outp) := rfl
  rw [main, loop1]
  rfl

/-- C2, witness for the amended theorem at the concrete bound `N = 2`. -/
theorem claim_C2_witness :
    (2 : Int) ≤ 2 ∧ Program.exec 30 (c2progN 2) [] = .error (.declaredTwice "y") :=
  ⟨by norm_num, claim_C2_amended 2 (by norm_num)⟩

/-- C3.  The spec's end-to-end scenario 3 does not print `3`: the values
`Parser.clean_data` returns are still strings (`c = int(c)` rebinds a loop
local), `input x` therefore stores the string `"0"`, and the first loop
test `"0" < 3` is a `str`/`int` comparison — a Python `TypeError` that
kills the run before any output. -/
theorem claim_C3 :
    parseProgram 30 c3toks = .ok (c3prog, [.ERROR])
    ∧ Program.semantics c3prog ⟨[], []⟩ = .ok (c3prog, ⟨[("x", true)], [[]]⟩)
    ∧ clean_data "0" = ["0"]
    ∧ Program.exec 30 c3prog (clean_data "0") = .error .typeError
    ∧ mainRun 30 c3toks "0" = .error .typeError
    ∧ parseProgram 30 c3toksParen = .error .unexpectedToken :=
  ⟨rfl, rfl, rfl, rfl, rfl, rfl⟩

/-- C4, counterexample.  `program int x ; begin x = 1 ; end` parses and
checks, but checking it a second time — from the state the first run left
behind, since nothing resets the checker's scope chain — aborts with a
duplicate declaration of `x`. -/
theorem claim_C4_counterexample :
    parseProgram 20 c4toks = .ok (c4prog, [.ERROR])
    ∧ Program.semantics c4prog ⟨[], []⟩ = .ok (c4prog, ⟨[("x", true)], [[]]⟩)
    ∧ Program.semantics c4prog ⟨[("x", true)], [[]]⟩ =
        .error (.declaredTwice "x") :=
  ⟨rfl, rfl, rfl⟩

/-- C5.  Chained `+`/`-` is right-associated: `2 - 3 - 4` parses as
`2 - (3 - 4)` and evaluates to `3`; in general `a op1 b op2 c` parses with
the second operator bound first and evaluates to `op1 a (op2 b c)`. -/
theorem claim_C5 :
    (parseExpr 10 [.CONST 2, .SUB, .CONST 3, .SUB, .CONST 4, .ERROR] =
      .ok (.sub (.factor (.const 2))
             (.sub (.factor (.const 3)) (constExpr 4)), [.ERROR]))
    ∧ Expr.eval (.sub (.factor (.const 2))
        (.sub (.factor (.const 3)) (constExpr 4))) ⟨[], []⟩ = .ok (.int 3)
    ∧ ∀ (a b c : Int) (o1 o2 : AOp),
        parseExpr 10 [.CONST a, o1.tok, .CONST b, o2.tok, .CONST c, .ERROR] =
          .ok (o1.node (.factor (.const a))
                 (o2.node (.factor (.const b)) (constExpr c)), [.ERROR])
        ∧ Expr.eval (o1.node (.factor (.const a))
            (o2.node (.factor (.const b)) (constExpr c))) ⟨[], []⟩ =
          .ok (.int (o1.denote a (o2.denote b c))) := by
  refine ⟨rfl, rfl, ?_⟩
  intro a b c o1 o2
  cases o1 <;> cases o2 <;> exact ⟨rfl, rfl⟩

/-- C6, counterexample.  Evaluating `2^63 + 2^63` yields the exact integer
`2^64`, not the value reduced modulo `2^64` (which would be `0`): there is
no fixed-width wraparound anywhere in `Expr.execute`/`Term.execute`. -/
theorem claim_C6_counterexample :
    Expr.eval c6bigSum ⟨[], []⟩ = .ok (.int (2 ^ 64))
    ∧ ((2 ^ 63 + 2 ^ 63 : Int) % 2 ^ 64) ≠ (2 ^ 64 : Int) := by
  refine ⟨rfl, by decide⟩

/-- C6, amended.  The operators `+`, `-`, `*` combine operand values with
exact arbitrary-precision integer arithmetic — Python `int` semantics — so
results near any would-be width bound grow instead of wrapping. -/
theorem claim_C6_amended (a b : Int) :
    Expr.eval (.add (.factor (.const a)) (constExpr b)) ⟨[], []⟩ =
      .ok (.int (a + b))
    ∧ Expr.eval (.sub (.factor (.const a)) (constExpr b)) ⟨[], []⟩ =
      .ok (.int (a - b))
    ∧ Term.eval (.mult (.const a) (.factor (.const b))) ⟨[], []⟩ =
      .ok (.int (a * b)) :=
  ⟨rfl, rfl, rfl⟩

/-- C7, counterexample.  With `CONST 1 CONST 2` — no `==`/`<`/`<=` after the
first expression — `Cmpr.parse` does not abort: it records no operator and
parses the second expression, returning successfully. -/
theorem claim_C7_counterexample :
    parseCmpr 10 [.CONST 1, .CONST 2, .ERROR] =
      .ok (⟨constExpr 1, none, constExpr 2⟩, [.ERROR]) :=
  rfl

/-- C7, amended.  When the token after the first expression is none of
`==`, `<`, `<=`, `Cmpr.parse` silently continues (no operator token is
consumed and the second expression is parsed); the malformed node only
fails later, at execution time, where `Cmpr.execute`'s `else` branch
subscripts the missing `self.nodes[2]` — an `IndexError`. -/
theorem claim_C7_amended (a b : Int) :
    parseCmpr 10 [.CONST a, .CONST b, .ERROR] =
      .ok (⟨constExpr a, none, constExpr b⟩, [.ERROR])
    ∧ Cmpr.eval ⟨constExpr a, none, constExpr b⟩ ⟨[], []⟩ =
      .error .indexError :=
  ⟨rfl, rfl⟩

/-- C9.  `Cmpr '|' Cond` is non-short-circuit: the right condition is
evaluated even when the left one is already true, so an aborting right
operand aborts the run, and when both succeed the results combine with
boolean or. -/
theorem claim_C9 (cm : Cmpr) (rest : Cond) (ch : VChain) :
    (∀ e : Err, cm.eval ch = .ok true → rest.eval ch = .error e →
      Cond.eval (.or cm rest) ch = .error e)
    ∧ (∀ a b : Bool, cm.eval ch = .ok a → rest.eval ch = .ok b →
      Cond.eval (.or cm rest) ch = .ok (a || b)) := by
  constructor
  · intro e h1 h2
    simp only [Cond.eval, h1, h2]
    rfl
  · intro a b h1 h2
    simp only [Cond.eval, h1, h2]
    rfl

/-- C9, witness: with `1 == 1` on the left and a read of the undeclared `z`
on the right, the disjunction aborts with the right operand's error even
though the left operand is true. -/
theorem claim_C9_witness :
    Cond.eval (.or c9true c9bad) ⟨[], []⟩ = .error (.notInstantiated "z") :=
  (claim_C9 c9true c9bad ⟨[], []⟩).1 (.notInstantiated "z") rfl rfl

/-- C10.  `Factor.expr_paren_parse` accepts `( Expr ( Expr ) )` as a single
factor, and executing it returns the FIRST inner expression's value
(`self.nodes[1]`), discarding every further consumed group. -/
theorem claim_C10 (a b : Int) :
    parseFactor 12 [.LPAREN, .CONST a, .LPAREN, .CONST b, .RPAREN, .RPAREN, .ERROR] =
      .ok (.paren (.more (constExpr a) (.one (constExpr b))), [.ERROR])
    ∧ Factor.eval (.paren (.more (constExpr a) (.one (constExpr b)))) ⟨[], []⟩ =
      .ok (.int a) :=
  ⟨rfl, rfl⟩

/-! ### Checking preserves root-frame keys (support for C4) -/

theorem RootKeep.rfl (c : SChain) : RootKeep c c := fun _ h => h

theorem RootKeep.trans {a b c : SChain} (h1 : RootKeep a b) (h2 : RootKeep b c) :
    RootKeep a c := fun n hn => h2 n (h1 n hn)

theorem bind_eq_ok {α β : Type} {x : Except Err α} {k : α → Except Err β} {b : β}
    (h : Bind.bind x k = Except.ok b) : ∃ a, x = Except.ok a ∧ k a = Except.ok b := by
  cases x with
  | error e => exact Except.noConfusion h
  | ok a => exact ⟨a, rfl, h⟩

theorem Frame.hasKey_append {α : Type} (f : Frame α) (p : String × α) (n : String)
    (h : Frame.hasKey f n = true) : Frame.hasKey (f ++ [p]) n = true := by
  simp only [Frame.hasKey, List.any_append, Bool.or_eq_true]
  exact Or.inl h

theorem Frame.hasKey_set {α : Type} (f : Frame α) (v : String) (x : α) (n : String) :
    Frame.hasKey (f.set v x) n = Frame.hasKey f n := by
  induction f with
  | nil => rfl
  | cons p rest ih =>
      simp only [Frame.set, List.map_cons, Frame.hasKey, List.any_cons] at ih ⊢
      rw [ih]
      by_cases hv : p.1 = v
      · subst hv; simp
      · simp [hv]

theorem rootKeep_declare (c : SChain) (i : Nat) (x : String) (a : Bool) :
    RootKeep c (c.setFrame i ((c.getFrame i) ++ [(x, a)])) := by
  cases i with
  | zero =>
      intro n hn
      exact Frame.hasKey_append _ _ _ hn
  | succ j => exact RootKeep.rfl _

theorem rootKeep_assign (c : SChain) (j : Nat) (v : String) :
    RootKeep c (c.setFrame j ((c.getFrame j).set v true)) := by
  cases j with
  | zero =>
      intro n hn
      simpa [Chain.setFrame, Frame.hasKey_set] using hn
  | succ j => exact RootKeep.rfl _

theorem identSemKeep (n : String) (r : Role) (i : Nat) (c c' : SChain)
    (h : Ident.semantics n r i c = .ok c') : RootKeep c c' := by
  cases r <;> simp only [Ident.semantics] at h
  case top => cases h; exact RootKeep.rfl _
  case call => cases h; exact RootKeep.rfl _
  case xpr => cases h; exact RootKeep.rfl _
  case get =>
      split at h
      · exact Except.noConfusion h
      · split at h
        · cases h; exact RootKeep.rfl _
        · exact Except.noConfusion h
  case declare =>
      split at h
      · exact Except.noConfusion h
      · cases h
        exact rootKeep_declare c i n false
  case assign =>
      split at h
      · exact Except.noConfusion h
      · cases h
        exact rootKeep_assign c _ n

mutual
theorem exprSemKeep : ∀ (e : Expr) (r : Role) (i : Nat) (c c' : SChain),
    e.semantics r i c = .ok c' → RootKeep c c'
  | .term t, r, i, c, c', h => termSemKeep t r i c c' h
  | .add t e, r, i, c, c', h => by
      simp only [Expr.semantics] at h
      obtain ⟨c1, h1, h2⟩ := bind_eq_ok h
      exact (termSemKeep t r i c c1 h1).trans (exprSemKeep e r i c1 c' h2)
  | .sub t e, r, i, c, c', h => by
      simp only [Expr.semantics] at h
      obtain ⟨c1, h1, h2⟩ := bind_eq_ok h
      exact (termSemKeep t r i c c1 h1).trans (exprSemKeep e r i c1 c' h2)

theorem termSemKeep : ∀ (t : Term) (r : Role) (i : Nat) (c c' : SChain),
    t.semantics r i c = .ok c' → RootKeep c c'
  | .factor f, r, i, c, c', h => factorSemKeep f r i c c' h
  | .mult f t, r, i, c, c', h => by
      simp only [Term.semantics] at h
      obtain ⟨c1, h1, h2⟩ := bind_eq_ok h
      exact (factorSemKeep f r i c c1 h1).trans (termSemKeep t r i c1 c' h2)

theorem factorSemKeep : ∀ (f : Factor) (r : Role) (i : Nat) (c c' : SChain),
    f.semantics r i c = .ok c' → RootKeep c c'
  | .ident x, r, i, c, c', h => identSemKeep x r i c c' h
  | .const n, _, _, c, c', h => by cases h; exact RootKeep.rfl _
  | .paren g, r, i, c, c', h => parenGroupSemKeep g r i c c' h

theorem parenGroupSemKeep : ∀ (g : ParenGroup) (r : Role) (i : Nat) (c c' : SChain),
    g.semantics r i c = .ok c' → RootKeep c c'
  | .one e, r, i, c, c', h => exprSemKeep e r i c c' h
  | .more e g, r, i, c, c', h => by
      simp only [ParenGroup.semantics] at h
      obtain ⟨c1, h1, h2⟩ := bind_eq_ok h
      exact (exprSemKeep e r i c c1 h1).trans (parenGroupSemKeep g r i c1 c' h2)
end



theorem cmprSemKeep (cm : Cmpr) (r : Role) (i : Nat) (c c' : SChain)
    (h : cm.semantics r i c = .ok c') : RootKeep c c' := by
  simp only [Cmpr.semantics] at h
  obtain ⟨c1, h1, h2⟩ := bind_eq_ok h
  exact (exprSemKeep cm.lhs r i c c1 h1).trans (exprSemKeep cm.rhs r i c1 c' h2)

mutual
theorem condSemKeep : ∀ (cd : Cond) (r : Role) (i : Nat) (c c' : SChain),
    cd.semantics r i c = .ok c' → RootKeep c c'
  | .cmpr cm, r, i, c, c', h => cmprSemKeep cm r i c c' h
  | .or cm rest, r, i, c, c', h => by
      simp only [Cond.semantics] at h
      obtain ⟨c1, h1, h2⟩ := bind_eq_ok h
      exact (cmprSemKeep cm r i c c1 h1).trans (condSemKeep rest r i c1 c' h2)
  | .neg g, r, i, c, c', h => condGroupSemKeep g r i c c' h

theorem condGroupSemKeep : ∀ (g : CondGroup) (r : Role) (i : Nat) (c c' : SChain),
    g.semantics r i c = .ok c' → RootKeep c c'
  | .one cd, r, i, c, c', h => condSemKeep cd r i c c' h
  | .more cd g, r, i, c, c', h => by
      simp only [CondGroup.semantics] at h
      obtain ⟨c1, h1, h2⟩ := bind_eq_ok h
      exact (condSemKeep cd r i c c1 h1).trans (condGroupSemKeep g r i c1 c' h2)
end

theorem idListSemKeep (l : IdList) (r : Role) (i : Nat) :
    ∀ (c c' : SChain), l.semantics r i c = .ok c' → RootKeep c c' := by
  induction l with
  | single x =>
      intro c c' h
      exact identSemKeep x r i c c' h
  | cons x rest ih =>
      intro c c' h
      simp only [IdList.semantics] at h
      obtain ⟨c1, h1, h2⟩ := bind_eq_ok h
      exact (identSemKeep x r i c c1 h1).trans (ih c1 c' h2)

theorem declSemKeep (d : Decl) (i : Nat) (c c' : SChain)
    (h : d.semantics i c = .ok c') : RootKeep c c' :=
  idListSemKeep d.ids .declare i c c' h

theorem declSeqSemKeep (ds : DeclSeq) (i : Nat) :
    ∀ (c c' : SChain), ds.semantics i c = .ok c' → RootKeep c c' := by
  induction ds with
  | single d =>
      intro c c' h
      exact declSemKeep d i c c' h
  | cons d rest ih =>
      intro c c' h
      simp only [DeclSeq.semantics] at h
      obtain ⟨c1, h1, h2⟩ := bind_eq_ok h
      exact (declSemKeep d i c c1 h1).trans (ih c1 c' h2)

theorem rootKeep_truncAttach (c : SChain) (i : Nat) (f : Frame Bool) :
    RootKeep c (c.truncAttach i f) := fun _ h => h

theorem rootKeep_trunc (c : SChain) (i : Nat) : RootKeep c (c.trunc i) :=
  fun _ h => h

mutual
theorem stmtSemKeep : ∀ (s : Stmt) (r : Role) (i : Nat) (c : SChain)
    (s' : Stmt) (c' : SChain), s.semantics r i c = .ok (s', c') → RootKeep c c'
  | .assign x e, r, i, c, s', c', h => by
      simp only [Stmt.semantics] at h
      obtain ⟨c1, h1, h2⟩ := bind_eq_ok h
      obtain ⟨c2, h3, h4⟩ := bind_eq_ok h2
      cases h4
      exact (identSemKeep x .assign i c _ h1).trans
        (exprSemKeep e .assign i _ _ h3)
  | .inputS x, r, i, c, s', c', h => by
      simp only [Stmt.semantics] at h
      obtain ⟨c1, h1, h2⟩ := bind_eq_ok h
      cases h2
      exact identSemKeep x .assign i c _ h1
  | .outputS e, r, i, c, s', c', h => by
      simp only [Stmt.semantics] at h
      obtain ⟨c1, h1, h2⟩ := bind_eq_ok h
      cases h2
      exact exprSemKeep e .call i c _ h1
  | .declS d, r, i, c, s', c', h => by
      simp only [Stmt.semantics] at h
      obtain ⟨c1, h1, h2⟩ := bind_eq_ok h
      cases h2
      exact declSemKeep d i c _ h1
  | .ifS cond thn fr, r, i, c, s', c', h => by
      simp only [Stmt.semantics] at h
      obtain ⟨c1, h1, h2⟩ := bind_eq_ok h
      obtain ⟨⟨thn2, c2⟩, h3, h4⟩ := bind_eq_ok h2
      cases h4
      exact ((rootKeep_truncAttach c i fr).trans
        ((condSemKeep cond r (i + 1) _ c1 h1).trans
          ((stmtSeqSemKeep thn r (i + 1) c1 thn2 c2 h3).trans
            (rootKeep_trunc c2 i))))
  | .ifElseS cond thn els fr, r, i, c, s', c', h => by
      simp only [Stmt.semantics] at h
      obtain ⟨c1, h1, h2⟩ := bind_eq_ok h
      obtain ⟨⟨thn2, c2⟩, h3, h4⟩ := bind_eq_ok h2
      obtain ⟨⟨els2, c3⟩, h5, h6⟩ := bind_eq_ok h4
      cases h6
      exact ((rootKeep_truncAttach c i fr).trans
        ((condSemKeep cond r (i + 1) _ c1 h1).trans
          ((stmtSeqSemKeep thn r (i + 1) c1 thn2 c2 h3).trans
            ((stmtSeqSemKeep els r (i + 1) c2 els2 c3 h5).trans
              (rootKeep_trunc c3 i)))))
  | .whileS cond body fr, r, i, c, s', c', h => by
      simp only [Stmt.semantics] at h
      obtain ⟨c1, h1, h2⟩ := bind_eq_ok h
      obtain ⟨⟨body2, c2⟩, h3, h4⟩ := bind_eq_ok h2
      cases h4
      exact ((rootKeep_truncAttach c i fr).trans
        ((condSemKeep cond r (i + 1) _ c1 h1).trans
          ((stmtSeqSemKeep body r (i + 1) c1 body2 c2 h3).trans
            (rootKeep_trunc c2 i))))

theorem stmtSeqSemKeep : ∀ (ss : StmtSeq) (r : Role) (i : Nat) (c : SChain)
    (ss' : StmtSeq) (c' : SChain), ss.semantics r i c = .ok (ss', c') → RootKeep c c'
  | .single s, r, i, c, ss', c', h => by
      simp only [StmtSeq.semantics] at h
      obtain ⟨⟨s2, c2⟩, h1, h2⟩ := bind_eq_ok h
      cases h2
      exact stmtSemKeep s r i c s2 c2 h1
  | .seq s rest, r, i, c, ss', c', h => by
      simp only [StmtSeq.semantics] at h
      obtain ⟨⟨s2, c2⟩, h1, h2⟩ := bind_eq_ok h
      obtain ⟨⟨rest2, c3⟩, h3, h4⟩ := bind_eq_ok h2
      cases h4
      exact (stmtSemKeep s r i c s2 c2 h1).trans
        (stmtSeqSemKeep rest r i c2 rest2 c3 h3)
end



theorem Frame.hasKey_self_append {α : Type} (f : Frame α) (x : String) (a : α) :
    Frame.hasKey (f ++ [(x, a)]) x = true := by
  simp [Frame.hasKey, List.any_append]

theorem idListSemFirstName (l : IdList) :
    ∀ (c c' : SChain), l.semantics .declare 0 c = .ok c' →
      Frame.hasKey c'.root l.firstName = true := by
  induction l with
  | single x =>
      intro c c' h
      simp only [IdList.semantics, Ident.semantics] at h
      split at h
      · exact Except.noConfusion h
      · cases h
        exact Frame.hasKey_self_append _ x false
  | cons x rest ih =>
      intro c c' h
      simp only [IdList.semantics] at h
      obtain ⟨c1, h1, h2⟩ := bind_eq_ok h
      have hk : Frame.hasKey c1.root x = true := by
        simp only [Ident.semantics] at h1
        split at h1
        · exact Except.noConfusion h1
        · cases h1
          exact Frame.hasKey_self_append _ x false
      exact idListSemKeep rest .declare 0 c1 c' h2 x hk

theorem declSeqSemFirstName (ds : DeclSeq) :
    ∀ (c c' : SChain), ds.semantics 0 c = .ok c' →
      Frame.hasKey c'.root ds.firstName = true := by
  induction ds with
  | single d =>
      intro c c' h
      exact idListSemFirstName d.ids c c' h
  | cons d rest ih =>
      intro c c' h
      simp only [DeclSeq.semantics] at h
      obtain ⟨c1, h1, h2⟩ := bind_eq_ok h
      exact declSeqSemKeep rest 0 c1 c' h2 d.ids.firstName
        (idListSemFirstName d.ids c c1 h1)

theorem programSemFirstName (p : Program) (p' : Program) (c' : SChain)
    (h : Program.semantics p ⟨[], []⟩ = .ok (p', c')) :
    p'.decls = p.decls ∧ Frame.hasKey c'.root p.firstDeclName = true := by
  simp only [Program.semantics] at h
  obtain ⟨c1, h1, h2⟩ := bind_eq_ok h
  obtain ⟨⟨ss, c3⟩, h3, h4⟩ := bind_eq_ok h2
  have h5 := Except.ok.inj h4
  rw [Prod.mk.injEq] at h5
  obtain ⟨h6, h7⟩ := h5
  subst h7
  constructor
  · rw [← h6]
  · have hk1 : Frame.hasKey c1.root p.decls.firstName = true :=
      declSeqSemFirstName p.decls _ c1 h1
    exact stmtSeqSemKeep p.stmts .top 1 _ ss _ h3 p.decls.firstName hk1

theorem identSemDeclareDup (n : String) (c : SChain)
    (h : Frame.hasKey c.root n = true) :
    Ident.semantics n .declare 0 c = .error (.declaredTwice n) := by
  simp only [Ident.semantics]
  rw [show c.getFrame 0 = c.root from rfl]
  simp [h]

theorem idListSemDeclareDup (l : IdList) (c : SChain)
    (h : Frame.hasKey c.root l.firstName = true) :
    l.semantics .declare 0 c = .error (.declaredTwice l.firstName) := by
  cases l with
  | single x => exact identSemDeclareDup x c h
  | cons x rest =>
      simp only [IdList.semantics, IdList.firstName] at h ⊢
      rw [identSemDeclareDup x c h]
      rfl

theorem declSeqSemDeclareDup (ds : DeclSeq) (c : SChain)
    (h : Frame.hasKey c.root ds.firstName = true) :
    ds.semantics 0 c = .error (.declaredTwice ds.firstName) := by
  cases ds with
  | single d => exact idListSemDeclareDup d.ids c h
  | cons d rest =>
      simp only [DeclSeq.semantics, DeclSeq.firstName, Decl.semantics] at h ⊢
      rw [idListSemDeclareDup d.ids c h]
      rfl

/-- C4, amended.  Checking is NOT idempotent: for every parsed program on
which the first checking run succeeds, a second checking run on the same
AST (with no intervening execution) aborts with a duplicate declaration of
the program's first declared identifier — the checker's global scope frame
and the nodes' persistent frames carry the first run's insertions into the
second run. -/
theorem claim_C4_amended (p p' : Program) (c' : SChain)
    (h : Program.semantics p ⟨[], []⟩ = .ok (p', c')) :
    Program.semantics p' c' = .error (.declaredTwice p.firstDeclName) := by
  obtain ⟨hdecls, hkey⟩ := programSemFirstName p p' c' h
  simp only [Program.semantics, hdecls]
  rw [declSeqSemDeclareDup p.decls c' hkey]
  rfl

/-- C4, witness for the amended theorem: `program int x ; begin x = 1 ; end`
checks successfully once, and the second run then fails. -/
theorem claim_C4_witness :
    Program.semantics c4prog ⟨[("x", true)], [[]]⟩ = .error (.declaredTwice "x") :=
  claim_C4_amended c4prog c4prog ⟨[("x", true)], [[]]⟩ rfl

end Coreland
